import Mathlib

/-!
Verification development for the `editor-monaco-language-apidom` plugin of a
plugin-based API specification editor.  The four source files embedded here are:

* `src/plugins/editor-monaco-language-apidom/index.js` — the plugin factory
  `EditorMonacoLanguageApiDOMPlugin` together with `defaultOptions`;
* `src/plugins/editor-monaco-language-apidom/language/apidom.js` — the language
  id and the declarative Monarch grammar tables;
* `after-load.js` — `makeAfterLoad`;
* `extensions/editor-monaco/wrap-components/EditorWrapper.jsx` — `EditorWrapper`.

The surrounding framework (plugin registry merge, state container, async
request tracker) lives outside the provided sources; those parts are modelled
from the specification and each such definition says so in its doc comment.
-/

namespace ApiDOM

/-- JavaScript-ish values carried in props, payloads and slice states. -/
inductive Value : Type where
  | vBool (b : Bool)
  | vStr (s : String)
  | vNat (n : Nat)
  | vErr (msg : String)
  deriving DecidableEq, Repr

/-- A props object: an association of prop names to values. -/
abbrev Props := List (String × Value)

/-- Lookup in a string-keyed association list (first match wins, as for a
JavaScript object where keys are unique). -/
def lookupStr {α : Type} : List (String × α) → String → Option α
  | [], _ => none
  | p :: tl, k => if p.1 = k then some p.2 else lookupStr tl k

/-- Remove every binding for key `k` from the association list. -/
def eraseKey {α : Type} : List (String × α) → String → List (String × α)
  | [], _ => []
  | p :: tl, k => if p.1 = k then eraseKey tl k else p :: eraseKey tl k

/-- Insert key `k` with value `v`, overwriting any previous binding for `k`
(the semantics of writing a key into a JavaScript object). -/
def insertOverwrite {α : Type} (m : List (String × α)) (k : String) (v : α) :
    List (String × α) :=
  (k, v) :: eraseKey m k

/--
A renderable component.  `base name` is a component contributed opaquely by
some plugin or the framework; `hoc t inner` is a higher-order component that,
given props `p`, renders `inner` with props `t p` — exactly the shape of the
JSX wrapper in `EditorWrapper.jsx`, which returns
`<Original ...props bracketPairColorizationEnabled=... />`.
-/
inductive Component : Type where
  | base (name : String)
  | hoc (transform : Props → Props) (inner : Component)

/-- One render step: a `hoc` component renders its inner component with the
transformed props; a `base` component is externally defined (no step here). -/
def renderOnce : Component → Props → Option (Component × Props)
  | .base _, _ => none
  | .hoc t c, p => some (c, t p)

/-- Options object for this plugin, as destructured by `EditorWrapper.jsx` and
`after-load.js`: a `useApiDOMSyntaxHighlighting` flag (destructuring default
`false`).  `createData` (default the empty object) is forwarded verbatim to
the Monaco contribution and is not further inspected by the embedded code. -/
structure PluginOptions where
  useApiDOMSyntaxHighlighting : Bool := false
  deriving DecidableEq, Repr

/-- `defaultOptions` from `index.js`: `useApiDOMSyntaxHighlighting: false`. -/
def defaultOptions : PluginOptions := { useApiDOMSyntaxHighlighting := false }

/-- `EditorWrapper.jsx`: `EditorWrapper` takes the options and the `Original`
component and returns the component
`(props) => <Original ...props bracketPairColorizationEnabled=opts.useApiDOMSyntaxHighlighting />`. -/
def EditorWrapper (opts : PluginOptions) (Original : Component) : Component :=
  .hoc
    (fun props =>
      insertOverwrite props "bracketPairColorizationEnabled"
        (.vBool opts.useApiDOMSyntaxHighlighting))
    Original

/-- `language/apidom.js` line 3: `export const languageId = 'apidom'`. -/
def languageId : String := "apidom"

/--
Observable editor/Monaco state threaded through the `afterLoad` hook:
whether the ApiDOM language has been registered with Monaco, how many times
the lazy Monaco contribution has run, and the sequence of language ids passed
to `system.editorActions.setLanguage` (in call order).
-/
structure MonacoState where
  registeredLanguage : Bool
  contributionCalls : Nat
  setLanguageCalls : List String
  deriving DecidableEq, Repr

/-- Modelled from the spec: `isLanguageRegistered` is exported by the missing
`language/monaco.contribution.js` and reports whether the ApiDOM language has
already been registered with the Monaco editor. -/
def isLanguageRegistered (st : MonacoState) : Bool :=
  st.registeredLanguage

/-- Modelled from the spec: `lazyMonacoContribution` is the default export of
the missing `language/monaco.contribution.js`; it performs the one-time Monaco
language registration (after which `isLanguageRegistered` reports true).  The
`createData`, `system` and `useApiDOMSyntaxHighlighting` arguments it receives
configure the external Monaco services and are not further observable here. -/
def lazyMonacoContribution (st : MonacoState) : MonacoState :=
  { st with registeredLanguage := true, contributionCalls := st.contributionCalls + 1 }

/-- Modelled from the spec: `apidomDefaults.getLanguageId()` from the missing
`language/monaco.contribution.js` yields the ApiDOM language id, the
`languageId` constant of `language/apidom.js`. -/
def apidomDefaultsGetLanguageId : String := languageId

/-- Modelled from the spec: `system.editorActions.setLanguage(id)` records the
requested editor language; here it appends the id to the call trace. -/
def setLanguage (st : MonacoState) (id : String) : MonacoState :=
  { st with setLanguageCalls := st.setLanguageCalls ++ [id] }

/-- `after-load.js`: `makeAfterLoad(options)` returns the hook
`(system) => { if (isLanguageRegistered()) return; lazyMonacoContribution(...);
system.editorActions.setLanguage(apidomDefaults.getLanguageId()); }`.
The options are forwarded to `lazyMonacoContribution` and do not otherwise
affect the control flow embedded here. -/
def makeAfterLoad (_options : PluginOptions) (st : MonacoState) : MonacoState :=
  if isLanguageRegistered st then st
  else setLanguage (lazyMonacoContribution st) apidomDefaultsGetLanguageId

/--
The plugin descriptor object literal returned by the inner `plugin` closure of
`index.js`: the `afterLoad` hook built by `makeAfterLoad(options)`, the three
`rootInjects` entries, the `Editor` wrapper built by `EditorWrapper(options)`,
the `fn.getApiDOMWorker` entry and the four `statePlugins.editor.actions`
entries.  The Monarch grammar tables, `getWorker` and the four action creators
are external values; the descriptor records which names are contributed, and
for `afterLoad`/`wrapComponents.Editor` the embedded functions themselves.
-/
structure ApiDOMPluginDescriptor where
  afterLoad : MonacoState → MonacoState
  rootInjects : List String
  wrapEditor : Component → Component
  fn : List String
  editorActions : List String

/-- The descriptor `index.js` builds from a given options object. -/
def buildDescriptor (options : PluginOptions) : ApiDOMPluginDescriptor where
  afterLoad := makeAfterLoad options
  rootInjects := ["monarchLanguageDef", "apiDOMMonarchLanguageDef", "apiDOMLanguageId"]
  wrapEditor := EditorWrapper options
  fn := ["getApiDOMWorker"]
  editorActions :=
    ["getJsonPointerPosition", "getJsonPointerPositionStarted",
     "getJsonPointerPositionSuccess", "getJsonPointerPositionFailure"]

/-- The argument object `opts` of `EditorMonacoLanguageApiDOMPlugin`: whether
`typeof opts.getSystem === 'function'` holds, plus the per-plugin options
fields the descriptor construction reads. -/
structure CallOpts where
  getSystemIsFunction : Bool := false
  options : PluginOptions := {}
  deriving DecidableEq, Repr

/-- `opts` defaults to `defaultOptions`, which carries no `getSystem`. -/
def defaultCallOpts : CallOpts :=
  { getSystemIsFunction := false, options := defaultOptions }

/-- Result of calling the plugin factory: either a descriptor (the swagger-ui
`getSystem` calling convention) or a plugin function to be invoked later. -/
inductive PluginFactoryResult where
  | descriptor (d : ApiDOMPluginDescriptor)
  | pluginFn (f : Unit → ApiDOMPluginDescriptor)

/-- `index.js`: `EditorMonacoLanguageApiDOMPlugin = (opts = defaultOptions) =>`
computes `isCalledWithGetSystem`, selects `options` as `defaultOptions` when
called with `getSystem` and as `opts` otherwise, defines the zero-argument
`plugin` closure over `options`, and returns `plugin(opts)` (the closure
ignores the argument) in the `getSystem` convention and `plugin` itself
otherwise. -/
def EditorMonacoLanguageApiDOMPlugin (opts : CallOpts := defaultCallOpts) :
    PluginFactoryResult :=
  let isCalledWithGetSystem := opts.getSystemIsFunction
  let options := if isCalledWithGetSystem then defaultOptions else opts.options
  let plugin := fun (_ : Unit) => buildDescriptor options
  if isCalledWithGetSystem then .descriptor (plugin ()) else .pluginFn plugin

/-!
Plugin registry and merge.  The registry implementation lives in the host
framework, outside the provided sources; it is modelled from the spec
(section 4.1, Plugin Registry and merge).
-/

/-- Modelled from the spec: a generic Plugin Descriptor — an optional
lifecycle hook (identified here by a tag; the hook body is opaque to the
merge), component factories by name, component wrappers by name, and free
functions by name (function bodies opaque, identified by tags).  Produced once
per plugin at registration time and never mutated. -/
structure GenDescriptor where
  afterLoad : Option Nat := none
  components : List (String × Component) := []
  wrapComponents : List (String × (Component → Component)) := []
  fns : List (String × Nat) := []

/-- Modelled from the spec: the merged System Object — the application-wide
name-to-component mapping and free-function mapping derived from all plugin
descriptors. -/
structure SystemObject where
  components : List (String × Component) := []
  fns : List (String × Nat) := []

/-- Modelled from the spec: applying one wrapper entry — the wrapper is
applied to whatever component currently occupies the name (the previous
plugin's version or the base version); a name never registered stays
unregistered. -/
def applyWrap (m : List (String × Component)) (k : String) (w : Component → Component) :
    List (String × Component) :=
  match lookupStr m k with
  | some c => insertOverwrite m k (w c)
  | none => m

/-- Modelled from the spec: merging one descriptor into the system — insert
component factories (overwriting on collision), then apply wrappers to the
current occupants, then merge free functions by name (last writer wins). -/
def applyDescriptor (sys : SystemObject) (d : GenDescriptor) : SystemObject :=
  let cs := d.components.foldl (fun m kv => insertOverwrite m kv.1 kv.2) sys.components
  let cs := d.wrapComponents.foldl (fun m kv => applyWrap m kv.1 kv.2) cs
  let fs := d.fns.foldl (fun m kv => insertOverwrite m kv.1 kv.2) sys.fns
  { components := cs, fns := fs }

/-- Modelled from the spec: the ordered merge of all descriptors into one
System Object, starting from the base system. -/
def mergeAll (base : SystemObject) (ds : List GenDescriptor) : SystemObject :=
  ds.foldl applyDescriptor base

/-- Modelled from the spec: the Component Resolver — `resolve(name)` returns
the final wrapped chain for the name, or nothing if never registered. -/
def resolve (sys : SystemObject) (name : String) : Option Component :=
  lookupStr sys.components name

/-- Modelled from the spec: after all merges complete, every descriptor's
lifecycle hook is invoked in registration order with the merged System Object;
the invocation trace records each call as a pair of the hook's tag and the
system it received. -/
def runHooks (ds : List GenDescriptor) (sys : SystemObject) : List (Nat × SystemObject) :=
  match ds with
  | [] => []
  | d :: tl =>
    match d.afterLoad with
    | some t => (t, sys) :: runHooks tl sys
    | none => runHooks tl sys

/-- Modelled from the spec: running the ordered plugin factories — a factory
either yields a descriptor or throws (carried as `Except.error`); a throw
propagates immediately, skipping the remaining factories. -/
def collectDescriptors : List (Except String GenDescriptor) →
    Except String (List GenDescriptor)
  | [] => .ok []
  | .error e :: _ => .error e
  | .ok d :: tl =>
    match collectDescriptors tl with
    | .ok ds => .ok (d :: ds)
    | .error e => .error e

/-- Modelled from the spec: application startup — run all plugin factories,
abort fatally if any throws, otherwise merge all descriptors in order and then
invoke every lifecycle hook once with the fully merged System Object.  The
result exposes the merged system and the hook invocation trace; on abort no
System Object (partial or otherwise) is exposed. -/
def startup (base : SystemObject) (factories : List (Except String GenDescriptor)) :
    Except String (SystemObject × List (Nat × SystemObject)) :=
  match collectDescriptors factories with
  | .error e => .error e
  | .ok ds =>
    let sys := mergeAll base ds
    .ok (sys, runHooks ds sys)

/-!
State container.  The dispatch/getState machinery lives in the host framework,
outside the provided sources; it is modelled from the spec (section 4.3).
-/

/-- Modelled from the spec: a dispatched action — a type key plus payload. -/
structure StoreAction where
  type : String
  payload : Value
  deriving DecidableEq, Repr

/-- Modelled from the spec: one named state slice — its current value and its
reducer mapping keyed by action type. -/
structure SliceDefn where
  state : Value
  reducers : List (String × (Value → StoreAction → Value))

/-- Modelled from the spec: the state container is a mapping from slice names
to slices. -/
structure Store where
  slices : List (String × SliceDefn)

/-- Modelled from the spec: the effect of one dispatched action on one slice —
if the slice's reducer mapping contains the action's type key, the matching
reducer is applied to the slice's current value, replacing it; otherwise the
slice is left untouched. -/
def applyReducers (a : StoreAction) (sl : SliceDefn) : SliceDefn :=
  match lookupStr sl.reducers a.type with
  | some r => { sl with state := r sl.state a }
  | none => sl

/-- Modelled from the spec: `dispatch` applies the action to every slice of
the container (each slice reacting only through its own reducer mapping). -/
def dispatch (st : Store) (a : StoreAction) : Store :=
  { slices := st.slices.map fun p => (p.1, applyReducers a p.2) }

/-- Modelled from the spec: `getState(sliceName)` returns the slice's current
value. -/
def getState (st : Store) (name : String) : Option Value :=
  (lookupStr st.slices name).map (·.state)

/-!
Async Action Tracker.  The started/success/failure action creators registered
by `index.js` (`getJsonPointerPositionStarted` and friends) and the reducers
consuming them live in the missing `actions/get-json-pointer-position.js`;
the mechanism is modelled from the spec (sections 3 Tracked Request and 4.4).
-/

/-- Modelled from the spec: the status of a tracked request. -/
inductive Status where
  | idle
  | loading
  | success
  | failure
  deriving DecidableEq, Repr

/-- Modelled from the spec: a Tracked Request slice —
`{identifier, status, payload, error}`, with the currently stored latest
request identifier (`none` before any request starts). -/
structure TrackedRequest where
  latestRequestId : Option Nat
  status : Status
  payload : Option Value
  error : Option Value
  deriving DecidableEq, Repr

/-- Modelled from the spec: the initial slice state — `idle`, nothing tracked. -/
def idleInit : TrackedRequest :=
  { latestRequestId := none, status := .idle, payload := none, error := none }

/-- Modelled from the spec: the actions of the tracked-request mechanism — a
start carrying a fresh request id, and success/failure completions carrying
the id they were issued with. -/
inductive TrackerAction where
  | started (requestId : Nat)
  | succeeded (requestId : Nat) (data : Value)
  | failed (requestId : Nat) (err : Value)
  deriving DecidableEq, Repr

/-- Modelled from the spec: the tracked-request reducer — a start stores the
fresh id, moves the status to `loading` and clears any previous error; a
success or failure compares its id against the stored latest id and applies
the status/payload transition only on an exact match, otherwise the action is
discarded and the slice left unchanged. -/
def trackerReduce (s : TrackedRequest) : TrackerAction → TrackedRequest
  | .started id =>
    { s with latestRequestId := some id, status := .loading, error := none }
  | .succeeded id data =>
    if s.latestRequestId = some id then
      { s with status := .success, payload := some data }
    else s
  | .failed id err =>
    if s.latestRequestId = some id then
      { s with status := .failure, error := some err }
    else s

/-- Fold a sequence of tracker actions over a slice state (the event loop
serializes all reducer applications). -/
def runTrace (s : TrackedRequest) (t : List TrackerAction) : TrackedRequest :=
  t.foldl trackerReduce s

/-- The request id a completion action carries, if the action is a completion. -/
def completionId : TrackerAction → Option Nat
  | .started _ => none
  | .succeeded id _ => some id
  | .failed id _ => some id

/-- The ids of all completion actions of a trace, in order. -/
def completionIds (t : List TrackerAction) : List Nat :=
  t.filterMap completionId

/-- The request id a start action carries, if the action is a start. -/
def startId : TrackerAction → Option Nat
  | .started id => some id
  | .succeeded _ _ => none
  | .failed _ _ => none

/-- The ids of all start actions of a trace, in order. -/
def startIds (t : List TrackerAction) : List Nat :=
  t.filterMap startId

/-- Modelled from the spec: a well-formed action trace — every start carries a
freshly generated (hence distinct) request id, and every tracked operation
completes at most once, so completion ids are distinct too. -/
def wfTrace (t : List TrackerAction) : Prop :=
  (startIds t).Nodup ∧ (completionIds t).Nodup

instance (t : List TrackerAction) : Decidable (wfTrace t) := by
  unfold wfTrace; infer_instance

/-- Invariant relating a tracked-request state to the set of request ids whose
completion has already been consumed: whenever the stored latest id has not
yet been completed, the slice is still `loading`. -/
def trackerInv (s : TrackedRequest) (done : List Nat) : Prop :=
  ∀ id, s.latestRequestId = some id → id ∉ done → s.status = .loading

/-- A concrete rapid-load race: two starts, then the stale failure of the
first request arriving after the second start, then the fresh success. -/
def raceTrace : List TrackerAction :=
  [.started 1, .started 2, .failed 1 (.vErr "stale"), .succeeded 2 (.vStr "fresh")]

/-!
Theorems.  Helper lemmas first, then one theorem per claim (with witnesses).
-/

theorem lookupStr_eraseKey_ne {α : Type} (m : List (String × α)) (k k' : String)
    (h : k ≠ k') : lookupStr (eraseKey m k) k' = lookupStr m k' := by
  induction m with
  | nil => rfl
  | cons p tl ih =>
    by_cases hp : p.1 = k
    · have hk' : p.1 ≠ k' := by rw [hp]; exact h
      rw [eraseKey, if_pos hp, ih, lookupStr, if_neg hk']
    · rw [eraseKey, if_neg hp, lookupStr, lookupStr]
      by_cases hp' : p.1 = k'
      · rw [if_pos hp', if_pos hp']
      · rw [if_neg hp', if_neg hp', ih]

theorem lookupStr_insertOverwrite_self {α : Type} (m : List (String × α)) (k : String) (v : α) :
    lookupStr (insertOverwrite m k v) k = some v := by
  simp [insertOverwrite, lookupStr]

theorem lookupStr_insertOverwrite_ne {α : Type} (m : List (String × α)) (k k' : String)
    (v : α) (h : k ≠ k') : lookupStr (insertOverwrite m k v) k' = lookupStr m k' := by
  rw [insertOverwrite, lookupStr, if_neg h, lookupStr_eraseKey_ne m k k' h]

theorem map_eq_self_of_fix {α : Type} (f : α → α) (l : List α)
    (h : ∀ x ∈ l, f x = x) : l.map f = l := by
  induction l with
  | nil => rfl
  | cons x tl ih =>
    rw [List.map_cons, h x (List.mem_cons_self x tl),
      ih (fun y hy => h y (List.mem_cons_of_mem x hy))]

theorem lookupStr_map_snd {α β : Type} (g : α → β) (l : List (String × α)) (k : String) :
    lookupStr (l.map (fun p => (p.1, g p.2))) k = (lookupStr l k).map g := by
  induction l with
  | nil => rfl
  | cons p tl ih => by_cases hp : p.1 = k <;> simp [lookupStr, hp, ih]

/-- C8: for every component `Original` and every props object, the `Editor`
returned by `EditorWrapper(options)(Original)` renders its wrapped argument
(never dropping it), passes every incoming prop other than
`bracketPairColorizationEnabled` through unchanged, and changes only that one
prop, set to the plugin's `useApiDOMSyntaxHighlighting` option, whose default
is `false`. -/
theorem editorWrapper_renders_original_with_frame (opts : PluginOptions)
    (Original : Component) (props : Props) (k : String)
    (hk : k ≠ "bracketPairColorizationEnabled") :
    ∃ ps, renderOnce (EditorWrapper opts Original) props = some (Original, ps) ∧
      lookupStr ps "bracketPairColorizationEnabled" =
        some (.vBool opts.useApiDOMSyntaxHighlighting) ∧
      lookupStr ps k = lookupStr props k ∧
      defaultOptions.useApiDOMSyntaxHighlighting = false := by
  refine ⟨_, rfl, lookupStr_insertOverwrite_self .., ?_, rfl⟩
  exact lookupStr_insertOverwrite_ne props "bracketPairColorizationEnabled" k _ (Ne.symm hk)

/-- Witness for C8 at a concrete wrapped component and props object. -/
theorem editorWrapper_renders_original_with_frame_witness :
    ("fontSize" : String) ≠ "bracketPairColorizationEnabled" ∧
    ∃ ps, renderOnce (EditorWrapper defaultOptions (.base "Editor"))
        [("fontSize", .vNat 14)] = some (.base "Editor", ps) ∧
      lookupStr ps "bracketPairColorizationEnabled" = some (.vBool false) ∧
      lookupStr ps "fontSize" = lookupStr [("fontSize", .vNat 14)] "fontSize" ∧
      defaultOptions.useApiDOMSyntaxHighlighting = false :=
  ⟨by decide,
    editorWrapper_renders_original_with_frame defaultOptions (.base "Editor")
      [("fontSize", .vNat 14)] "fontSize" (by decide)⟩

/-- C9: the `afterLoad` hook produced by `makeAfterLoad` is idempotent — when
`isLanguageRegistered()` reports true it returns at once, calling neither
`lazyMonacoContribution` nor `setLanguage`, so a second invocation leaves all
state unchanged; when the language is not yet registered it runs the Monaco
contribution once and then sets the editor language to
`apidomDefaults.getLanguageId()`, the ApiDOM `languageId`. -/
theorem makeAfterLoad_idempotent (options : PluginOptions) (st : MonacoState) :
    (isLanguageRegistered st = true → makeAfterLoad options st = st) ∧
    makeAfterLoad options (makeAfterLoad options st) = makeAfterLoad options st ∧
    (isLanguageRegistered st = false →
      makeAfterLoad options st =
        { registeredLanguage := true,
          contributionCalls := st.contributionCalls + 1,
          setLanguageCalls := st.setLanguageCalls ++ [languageId] }) := by
  by_cases h : st.registeredLanguage
  · refine ⟨fun _ => ?_, ?_, fun hf => ?_⟩
    · simp [makeAfterLoad, isLanguageRegistered, h]
    · simp [makeAfterLoad, isLanguageRegistered, h]
    · rw [isLanguageRegistered] at hf
      rw [hf] at h
      exact absurd h (by simp)
  · have h1 : makeAfterLoad options st =
        { registeredLanguage := true,
          contributionCalls := st.contributionCalls + 1,
          setLanguageCalls := st.setLanguageCalls ++ [languageId] } := by
      simp [makeAfterLoad, isLanguageRegistered, h, setLanguage,
        lazyMonacoContribution, apidomDefaultsGetLanguageId]
    refine ⟨fun ht => ?_, ?_, fun _ => h1⟩
    · rw [isLanguageRegistered] at ht
      exact absurd ht (by simp [h])
    · rw [h1]; simp [makeAfterLoad, isLanguageRegistered]

/-- Witness for C9 at a concrete unregistered editor state. -/
theorem makeAfterLoad_idempotent_witness :
    isLanguageRegistered ⟨false, 0, []⟩ = false ∧
    makeAfterLoad defaultOptions ⟨false, 0, []⟩ =
      { registeredLanguage := true, contributionCalls := 1,
        setLanguageCalls := [languageId] } :=
  ⟨rfl, (makeAfterLoad_idempotent defaultOptions ⟨false, 0, []⟩).2.2 rfl⟩

/-- C10: if `opts.getSystem` is a function, `EditorMonacoLanguageApiDOMPlugin`
returns the plugin descriptor immediately, built from `defaultOptions`
(`useApiDOMSyntaxHighlighting = false`) and ignoring every other field of
`opts`; otherwise it returns the plugin function which, when later invoked,
builds the descriptor from `opts` — per-plugin options are honored only in the
non-`getSystem` calling convention. -/
theorem plugin_calling_convention (opts : CallOpts) :
    (opts.getSystemIsFunction = true →
      EditorMonacoLanguageApiDOMPlugin opts =
        .descriptor (buildDescriptor defaultOptions)) ∧
    (opts.getSystemIsFunction = false →
      EditorMonacoLanguageApiDOMPlugin opts =
        .pluginFn (fun _ => buildDescriptor opts.options)) ∧
    defaultOptions.useApiDOMSyntaxHighlighting = false := by
  refine ⟨fun h => ?_, fun h => ?_, rfl⟩ <;>
    simp [EditorMonacoLanguageApiDOMPlugin, h]

/-- Witness for C10: called with a `getSystem` function and with
`useApiDOMSyntaxHighlighting = true`, the factory still builds the descriptor
from `defaultOptions`, ignoring the option. -/
theorem plugin_calling_convention_witness :
    (CallOpts.mk true { useApiDOMSyntaxHighlighting := true }).getSystemIsFunction = true ∧
    EditorMonacoLanguageApiDOMPlugin
        (CallOpts.mk true { useApiDOMSyntaxHighlighting := true }) =
      .descriptor (buildDescriptor defaultOptions) :=
  ⟨rfl, (plugin_calling_convention
    (CallOpts.mk true { useApiDOMSyntaxHighlighting := true })).1 rfl⟩

/-- C1: after `start(A)` then `start(B)`, a success or failure carrying the
superseded request id `A` is discarded, leaving the slice unchanged, while a
success or failure carrying the stored latest id `B` is applied; hence when
`B`'s completion arrives before `A`'s, the final slice state reflects `B`'s
result and never `A`'s. -/
theorem stale_completion_discarded (s s2 : TrackedRequest) (A B : Nat)
    (dataB errB dataA errA : Value) (hAB : A ≠ B)
    (hs2 : s2 = trackerReduce (trackerReduce s (.started A)) (.started B)) :
    trackerReduce s2 (.succeeded A dataA) = s2 ∧
    trackerReduce s2 (.failed A errA) = s2 ∧
    trackerReduce s2 (.succeeded B dataB) =
      { s2 with status := .success, payload := some dataB } ∧
    trackerReduce s2 (.failed B errB) =
      { s2 with status := .failure, error := some errB } ∧
    runTrace s2 [.succeeded B dataB, .succeeded A dataA, .failed A errA] =
      { s2 with status := .success, payload := some dataB } := by
  have hBA : B ≠ A := Ne.symm hAB
  have hlat : s2.latestRequestId = some B := by rw [hs2]; rfl
  refine ⟨?_, ?_, ?_, ?_, ?_⟩ <;>
    simp [runTrace, trackerReduce, hlat, hBA]

/-- Witness for C1 at concrete request ids 1 and 2 from the initial state. -/
theorem stale_completion_discarded_witness :
    ((1 : Nat) ≠ 2) ∧
    (TrackedRequest.mk (some 2) .loading none none =
      trackerReduce (trackerReduce idleInit (.started 1)) (.started 2)) ∧
    runTrace (TrackedRequest.mk (some 2) .loading none none)
        [.succeeded 2 (.vStr "B"), .succeeded 1 (.vStr "A"), .failed 1 (.vErr "A")] =
      { TrackedRequest.mk (some 2) .loading none none with
          status := .success, payload := some (.vStr "B") } :=
  ⟨by decide, by decide,
    (stale_completion_discarded idleInit (TrackedRequest.mk (some 2) .loading none none)
      1 2 (.vStr "B") (.vErr "B") (.vStr "A") (.vErr "A") (by decide) (by decide)).2.2.2.2⟩

/-- C6: dispatching an action whose type key matches no reducer in any
slice's reducer mapping is a no-op — every slice (indeed the whole store) is
left identically unchanged. -/
theorem unmatched_dispatch_is_noop (st : Store) (a : StoreAction)
    (h : ∀ p ∈ st.slices, lookupStr p.2.reducers a.type = none) :
    dispatch st a = st := by
  cases st with
  | mk slices =>
    show Store.mk _ = Store.mk _
    congr 1
    apply map_eq_self_of_fix
    intro p hp
    show (p.1, applyReducers a p.2) = p
    simp [applyReducers, h p hp]

/-- Witness for C6: a store with one slice reducing only `SET`, dispatched an
`OTHER` action, is unchanged. -/
theorem unmatched_dispatch_is_noop_witness :
    (∀ p ∈ (Store.mk
        [("s", SliceDefn.mk (.vStr "") [("SET", fun _ a => a.payload)])]).slices,
      lookupStr p.2.reducers "OTHER" = none) ∧
    dispatch (Store.mk [("s", SliceDefn.mk (.vStr "") [("SET", fun _ a => a.payload)])])
        (StoreAction.mk "OTHER" (.vStr "x")) =
      Store.mk [("s", SliceDefn.mk (.vStr "") [("SET", fun _ a => a.payload)])] :=
  have h : ∀ p ∈ (Store.mk
      [("s", SliceDefn.mk (.vStr "") [("SET", fun _ a => a.payload)])]).slices,
      lookupStr p.2.reducers "OTHER" = none := by
    intro p hp
    rw [List.mem_singleton] at hp
    rw [hp]
    rfl
  ⟨h, unmatched_dispatch_is_noop _ (StoreAction.mk "OTHER" (.vStr "x")) h⟩

/-- C7: `getState(sliceName)` immediately after a dispatch that applied a
reducer returns exactly the value that reducer returned — no hidden copying
or mutation. -/
theorem getState_after_dispatch (st : Store) (name : String) (a : StoreAction)
    (sl : SliceDefn) (r : Value → StoreAction → Value)
    (hsl : lookupStr st.slices name = some sl)
    (hr : lookupStr sl.reducers a.type = some r) :
    getState (dispatch st a) name = some (r sl.state a) := by
  rw [getState, dispatch]
  rw [show (fun (p : String × SliceDefn) => (p.1, applyReducers a p.2)) =
      (fun p => (p.1, applyReducers a p.2)) from rfl]
  rw [lookupStr_map_snd (applyReducers a) st.slices name, hsl]
  simp [applyReducers, hr]

/-- Witness for C7: the scenario slice `s` with reducer
`SET: (state, a) => a.payload`, initial value the empty string, dispatched
`SET` with payload `hello`, then read back. -/
theorem getState_after_dispatch_witness :
    lookupStr (Store.mk
        [("s", SliceDefn.mk (.vStr "") [("SET", fun _ a => a.payload)])]).slices "s" =
      some (SliceDefn.mk (.vStr "") [("SET", fun _ a => a.payload)]) ∧
    getState (dispatch
        (Store.mk [("s", SliceDefn.mk (.vStr "") [("SET", fun _ a => a.payload)])])
        (StoreAction.mk "SET" (.vStr "hello"))) "s" = some (.vStr "hello") :=
  ⟨rfl,
    getState_after_dispatch
      (Store.mk [("s", SliceDefn.mk (.vStr "") [("SET", fun _ a => a.payload)])])
      "s" (StoreAction.mk "SET" (.vStr "hello"))
      (SliceDefn.mk (.vStr "") [("SET", fun _ a => a.payload)])
      (fun _ a => a.payload) rfl rfl⟩

/-- C2: two plugins registered in order, both wrapping `Editor`, resolve to
the second wrapper applied to the first wrapper applied to the base `Editor`;
and on component-factory name collision the last-registered plugin's factory
wins. -/
theorem wrapper_order_and_factory_collision (base : SystemObject) (e0 : Component)
    (w1 w2 : Component → Component) (f1 f2 : Component)
    (hbase : lookupStr base.components "Editor" = some e0) :
    resolve (mergeAll base
      [{ wrapComponents := [("Editor", w1)] },
       { wrapComponents := [("Editor", w2)] }]) "Editor" = some (w2 (w1 e0)) ∧
    resolve (mergeAll base
      [{ components := [("X", f1)] },
       { components := [("X", f2)] }]) "X" = some f2 := by
  constructor
  · simp [mergeAll, applyDescriptor, applyWrap, resolve, hbase,
      lookupStr_insertOverwrite_self]
  · simp [mergeAll, applyDescriptor, applyWrap, resolve,
      lookupStr_insertOverwrite_self]

/-- Witness for C2 with the source's own `EditorWrapper` (under default and
highlighting options) as the two registered wrappers over a base `Editor`. -/
theorem wrapper_order_and_factory_collision_witness :
    lookupStr (SystemObject.mk [("Editor", Component.base "Editor")] []).components
      "Editor" = some (Component.base "Editor") ∧
    resolve (mergeAll (SystemObject.mk [("Editor", Component.base "Editor")] [])
      [{ wrapComponents := [("Editor", EditorWrapper defaultOptions)] },
       { wrapComponents :=
          [("Editor", EditorWrapper { useApiDOMSyntaxHighlighting := true })] }])
      "Editor" =
      some (EditorWrapper { useApiDOMSyntaxHighlighting := true }
        (EditorWrapper defaultOptions (Component.base "Editor"))) ∧
    resolve (mergeAll (SystemObject.mk [("Editor", Component.base "Editor")] [])
      [{ components := [("X", Component.base "X1")] },
       { components := [("X", Component.base "X2")] }]) "X" =
      some (Component.base "X2") :=
  have h := wrapper_order_and_factory_collision
    (SystemObject.mk [("Editor", Component.base "Editor")] [])
    (Component.base "Editor") (EditorWrapper defaultOptions)
    (EditorWrapper { useApiDOMSyntaxHighlighting := true })
    (Component.base "X1") (Component.base "X2") rfl
  ⟨rfl, h.1, h.2⟩

theorem collectDescriptors_error_of_mem (factories : List (Except String GenDescriptor))
    (e : String) (h : Except.error e ∈ factories) :
    ∃ e', collectDescriptors factories = .error e' := by
  induction factories with
  | nil => cases h
  | cons f tl ih =>
    cases f with
    | error e'' => exact ⟨e'', rfl⟩
    | ok d =>
      have htl : Except.error e ∈ tl := by
        cases h with
        | tail _ h' => exact h'
      obtain ⟨e', he'⟩ := ih htl
      exact ⟨e', by simp [collectDescriptors, he']⟩

/-- C5: if a plugin factory throws during descriptor construction, startup
aborts as fatal — the result is an error exposing no (partially merged)
System Object and no hook/render activity. -/
theorem factory_throw_aborts_startup (base : SystemObject)
    (factories : List (Except String GenDescriptor))
    (h : ∃ e, Except.error e ∈ factories) :
    ∃ e', startup base factories = .error e' := by
  obtain ⟨e, he⟩ := h
  obtain ⟨e', he'⟩ := collectDescriptors_error_of_mem factories e he
  exact ⟨e', by simp [startup, he']⟩

/-- Witness for C5: one good factory followed by a throwing one. -/
theorem factory_throw_aborts_startup_witness :
    (∃ e, Except.error e ∈
      ([.ok {}, .error "factory threw"] : List (Except String GenDescriptor))) ∧
    ∃ e', startup (SystemObject.mk [] [])
      ([.ok {}, .error "factory threw"] : List (Except String GenDescriptor)) =
        .error e' :=
  have hmem : (Except.error "factory threw" : Except String GenDescriptor) ∈
      ([.ok {}, .error "factory threw"] : List (Except String GenDescriptor)) :=
    List.Mem.tail _ (List.Mem.head _)
  ⟨⟨_, hmem⟩, factory_throw_aborts_startup (SystemObject.mk [] []) _ ⟨_, hmem⟩⟩

theorem runHooks_map_fst (ds : List GenDescriptor) (sys : SystemObject) :
    (runHooks ds sys).map Prod.fst = ds.filterMap GenDescriptor.afterLoad := by
  induction ds with
  | nil => rfl
  | cons d tl ih =>
    cases hd : d.afterLoad with
    | some t => simp [runHooks, hd, List.filterMap_cons, ih]
    | none => simp [runHooks, hd, List.filterMap_cons, ih]

theorem runHooks_snd (ds : List GenDescriptor) (sys : SystemObject) :
    ∀ c ∈ runHooks ds sys, c.2 = sys := by
  induction ds with
  | nil => intro c hc; cases hc
  | cons d tl ih =>
    intro c hc
    cases hd : d.afterLoad with
    | some t =>
      simp only [runHooks, hd] at hc
      cases hc with
      | head => rfl
      | tail _ h' => exact ih c h'
    | none =>
      simp only [runHooks, hd] at hc
      exact ih c hc

/-- C4: when every plugin factory yields its descriptor, startup succeeds and
each descriptor's `afterLoad` lifecycle hook is invoked exactly once, in
registration order, and every invocation receives the fully merged System
Object as its argument. -/
theorem hooks_called_once_in_order (base : SystemObject)
    (factories : List (Except String GenDescriptor)) (ds : List GenDescriptor)
    (hok : collectDescriptors factories = .ok ds) :
    ∃ sys calls, startup base factories = .ok (sys, calls) ∧
      sys = mergeAll base ds ∧
      calls.map Prod.fst = ds.filterMap GenDescriptor.afterLoad ∧
      ∀ c ∈ calls, c.2 = sys := by
  refine ⟨mergeAll base ds, runHooks ds (mergeAll base ds), ?_, rfl,
    runHooks_map_fst ds (mergeAll base ds), runHooks_snd ds (mergeAll base ds)⟩
  simp [startup, hok]

/-- Witness for C4: three descriptors, the middle one without a hook; the two
hooks fire once each, in order, both seeing the merged system. -/
theorem hooks_called_once_in_order_witness :
    collectDescriptors
      [.ok (GenDescriptor.mk (some 10) [] [] []),
       .ok (GenDescriptor.mk none [] [] []),
       .ok (GenDescriptor.mk (some 20) [] [] [])] =
      .ok [GenDescriptor.mk (some 10) [] [] [],
        GenDescriptor.mk none [] [] [], GenDescriptor.mk (some 20) [] [] []] ∧
    ∃ sys calls,
      startup (SystemObject.mk [] [])
        [.ok (GenDescriptor.mk (some 10) [] [] []),
         .ok (GenDescriptor.mk none [] [] []),
         .ok (GenDescriptor.mk (some 20) [] [] [])] = .ok (sys, calls) ∧
      sys = mergeAll (SystemObject.mk [] [])
        [GenDescriptor.mk (some 10) [] [] [],
         GenDescriptor.mk none [] [] [], GenDescriptor.mk (some 20) [] [] []] ∧
      calls.map Prod.fst =
        [GenDescriptor.mk (some 10) [] [] [], GenDescriptor.mk none [] [] [],
         GenDescriptor.mk (some 20) [] [] []].filterMap GenDescriptor.afterLoad ∧
      ∀ c ∈ calls, c.2 = sys :=
  ⟨rfl, hooks_called_once_in_order (SystemObject.mk [] []) _ _ rfl⟩

theorem completionIds_cons (a : TrackerAction) (t : List TrackerAction) :
    completionIds (a :: t) = (completionId a).toList ++ completionIds t := by
  cases a <;> simp [completionIds, completionId, List.filterMap_cons]

theorem trackerInv_step (s : TrackedRequest) (done : List Nat) (a : TrackerAction)
    (h : trackerInv s done) :
    trackerInv (trackerReduce s a) (done ++ (completionId a).toList) := by
  intro id hid hmem
  cases a with
  | started id' => rfl
  | succeeded id' data =>
    by_cases hm : s.latestRequestId = some id'
    · exfalso
      simp only [trackerReduce, if_pos hm] at hid
      have hids : id' = id := Option.some.inj (hm.symm.trans hid)
      exact hmem (List.mem_append_right done
        (by simp [completionId, hids]))
    · simp only [trackerReduce, if_neg hm] at hid ⊢
      exact h id hid (fun hin => hmem (List.mem_append_left _ hin))
  | failed id' err =>
    by_cases hm : s.latestRequestId = some id'
    · exfalso
      simp only [trackerReduce, if_pos hm] at hid
      have hids : id' = id := Option.some.inj (hm.symm.trans hid)
      exact hmem (List.mem_append_right done
        (by simp [completionId, hids]))
    · simp only [trackerReduce, if_neg hm] at hid ⊢
      exact h id hid (fun hin => hmem (List.mem_append_left _ hin))

theorem trackerInv_run (t : List TrackerAction) :
    ∀ (s : TrackedRequest) (done : List Nat), trackerInv s done →
      trackerInv (runTrace s t) (done ++ completionIds t) := by
  induction t with
  | nil =>
    intro s done h
    simpa [runTrace, completionIds] using h
  | cons a tl ih =>
    intro s done h
    have h2 := ih (trackerReduce s a) (done ++ (completionId a).toList)
      (trackerInv_step s done a h)
    rw [completionIds_cons, ← List.append_assoc]
    exact h2

theorem trackerInv_prefix (t : List TrackerAction) :
    trackerInv (runTrace idleInit t) (completionIds t) := by
  have h0 : trackerInv idleInit [] := by
    intro id hid _
    simp [idleInit] at hid
  simpa using trackerInv_run t idleInit [] h0

/-- C3: the tracked-request status follows the state machine
`idle -> loading -> success or failure -> loading` — the initial state is
`idle`; a start transitions the status to `loading` (storing the fresh id and
clearing any previous error); no transition re-enters `idle` from a non-idle
state; and along any well-formed action trace, every step that moves the
status to `success` or `failure` fires from a `loading` state whose stored
latest request id exactly matches the completion's id. -/
theorem tracked_status_state_machine :
    idleInit.status = .idle ∧
    (∀ (s : TrackedRequest) (id : Nat),
      trackerReduce s (.started id) =
        { s with latestRequestId := some id, status := .loading, error := none }) ∧
    (∀ (s : TrackedRequest) (a : TrackerAction),
      s.status ≠ .idle → (trackerReduce s a).status ≠ .idle) ∧
    (∀ (t : List TrackerAction) (i : Nat) (hi : i < t.length),
      wfTrace t →
      (trackerReduce (runTrace idleInit (t.take i)) (t.get ⟨i, hi⟩)).status ≠
        (runTrace idleInit (t.take i)).status →
      ((trackerReduce (runTrace idleInit (t.take i)) (t.get ⟨i, hi⟩)).status = .success ∨
        (trackerReduce (runTrace idleInit (t.take i)) (t.get ⟨i, hi⟩)).status = .failure) →
      (runTrace idleInit (t.take i)).status = .loading ∧
      completionId (t.get ⟨i, hi⟩) = (runTrace idleInit (t.take i)).latestRequestId) := by
  refine ⟨rfl, fun s id => rfl, ?_, ?_⟩
  · intro s a h
    cases a with
    | started id => simp [trackerReduce]
    | succeeded id data =>
      by_cases hm : s.latestRequestId = some id
      · simp [trackerReduce, hm]
      · simpa [trackerReduce, hm] using h
    | failed id err =>
      by_cases hm : s.latestRequestId = some id
      · simp [trackerReduce, hm]
      · simpa [trackerReduce, hm] using h
  · intro t i hi hwf hchange hsf
    have hinv := trackerInv_prefix (t.take i)
    have hteq : t = t.take i ++ t.get ⟨i, hi⟩ :: t.drop (i + 1) := by
      rw [List.get_eq_getElem, ← List.drop_eq_getElem_cons hi, List.take_append_drop]
    cases ha : t.get ⟨i, hi⟩ with
    | started id =>
      exfalso
      rw [ha] at hsf
      rcases hsf with h | h <;> simp [trackerReduce] at h
    | succeeded id data =>
      rw [ha] at hteq
      by_cases hm : (runTrace idleInit (t.take i)).latestRequestId = some id
      · have h2 : completionIds t =
            completionIds (t.take i) ++ id :: completionIds (t.drop (i + 1)) := by
          conv_lhs => rw [hteq]
          simp [completionIds, List.filterMap_append, List.filterMap_cons, completionId]
        have hnd := hwf.2
        rw [h2] at hnd
        have hdisj := (List.nodup_append.mp hnd).2.2
        have hid_not : id ∉ completionIds (t.take i) :=
          fun hin => hdisj hin (List.mem_cons_self _ _)
        refine ⟨hinv id hm hid_not, ?_⟩
        exact hm.symm
      · exfalso
        apply hchange
        rw [ha]
        simp [trackerReduce, hm]
    | failed id err =>
      rw [ha] at hteq
      by_cases hm : (runTrace idleInit (t.take i)).latestRequestId = some id
      · have h2 : completionIds t =
            completionIds (t.take i) ++ id :: completionIds (t.drop (i + 1)) := by
          conv_lhs => rw [hteq]
          simp [completionIds, List.filterMap_append, List.filterMap_cons, completionId]
        have hnd := hwf.2
        rw [h2] at hnd
        have hdisj := (List.nodup_append.mp hnd).2.2
        have hid_not : id ∉ completionIds (t.take i) :=
          fun hin => hdisj hin (List.mem_cons_self _ _)
        refine ⟨hinv id hm hid_not, ?_⟩
        exact hm.symm
      · exfalso
        apply hchange
        rw [ha]
        simp [trackerReduce, hm]

/-- Witness for C3 on the concrete race trace: the stale failure of request 1
leaves the slice loading, and the success of request 2 fires from `loading`
with exactly the stored latest id 2. -/
theorem tracked_status_state_machine_witness :
    wfTrace raceTrace ∧
    ((runTrace idleInit (raceTrace.take 3)).status = .loading ∧
      completionId (raceTrace.get ⟨3, by decide⟩) =
        (runTrace idleInit (raceTrace.take 3)).latestRequestId) :=
  ⟨by decide,
    tracked_status_state_machine.2.2.2 raceTrace 3 (by decide) (by decide)
      (by decide) (Or.inl (by decide))⟩

end ApiDOM
